import Mathlib

/-!
Verification development for the BGG scraping/persistence pipeline
(`src/data_ingestion/bgg_scraper.py`, `src/db/repository.py`,
`src/db/postgre.py`).  Python functions are shallowly embedded as Lean
definitions; Python dictionaries are modelled as insertion-ordered
association lists with overwrite-in-place assignment, which matches
CPython dict semantics.
-/

namespace BGG

/-! ## Python dict model

`dictInsert` models `items[k] = v` on a `dict`: if the key is present its
value is replaced in place (insertion order kept), otherwise the pair is
appended.  `dictUpdate` models `items.update(other)`, and `dictLookup`
models `items.get(k)`. -/

def dictInsert {α : Type} : List (String × α) → String → α → List (String × α)
  | [], k, v => [(k, v)]
  | p :: rest, k, v =>
    if p.1 = k then (k, v) :: rest else p :: dictInsert rest k v

def dictUpdate {α : Type} (m other : List (String × α)) : List (String × α) :=
  other.foldl (fun acc p => dictInsert acc p.1 p.2) m

def dictLookup {α : Type} : List (String × α) → String → Option α
  | [], _ => none
  | p :: rest, k => if p.1 = k then some p.2 else dictLookup rest k

/-! ## Scalar values

Python scalars that occur in the scraper's records.  A float produced by
`float()` on a matched decimal literal `±d…d.f…f` is modelled exactly, as
the mantissa/exponent pair of the literal; `floatDenote` gives the rational
value it denotes. -/

inductive PyVal where
  | vNone
  | vStr (s : String)
  | vInt (n : Int)
  | vFloat (mant : Int) (exp : Nat)
  | vList (xs : List String)
deriving DecidableEq, Repr

def floatDenote (mant : Int) (exp : Nat) : Rat :=
  (mant : Rat) / (10 : Rat) ^ exp

/-! ## `BGGDataExtractor._extract_numeric_value`

Embedding of `_extract_numeric_value` (bgg_scraper.py lines 166-190):

```python
cleaned_value = raw_value.strip().replace(",", "")
if re.match(r"^-?\d+\.\d+$", cleaned_value):
    try: return float(cleaned_value)
    except ValueError: return raw_value
elif cleaned_value.isdigit() or (cleaned_value.startswith('-') and cleaned_value[1:].isdigit()):
    try: return int(cleaned_value)
    except ValueError: return raw_value
return raw_value
```

`float`/`int` cannot raise `ValueError` on a string matched by the
respective guard, so the `except` branches are dead and are not modelled.
`str.isdigit` is modelled for ASCII digit strings (the only ones the
scraper produces). -/

def pyIsSpace (c : Char) : Bool :=
  c = ' ' || c = '\t' || c = '\n' || c = '\r' || c = '\x0b' || c = '\x0c'

def pyStrip (s : String) : String :=
  String.mk (((s.data.dropWhile pyIsSpace).reverse.dropWhile pyIsSpace).reverse)

def pyIsDigitStr (cs : List Char) : Bool :=
  !cs.isEmpty && cs.all Char.isDigit

/-- Matching of the regex `^-?\d+\.\d+$`: optional sign, one or more digits, a dot,
one or more digits. -/
def decMatch (cs : List Char) : Bool :=
  let body := match cs with
    | '-' :: rest => rest
    | _ => cs
  match body.span Char.isDigit with
  | (intPart, '.' :: fracPart) => !intPart.isEmpty && pyIsDigitStr fracPart
  | _ => false

def digitsToNat (cs : List Char) : Nat :=
  cs.foldl (fun a c => 10 * a + (c.toNat - '0'.toNat)) 0

/-- Evaluation of `int(cleaned)` on a string accepted by the integer guard. -/
def parsePyInt (cs : List Char) : Int :=
  match cs with
  | '-' :: rest => -(digitsToNat rest : Int)
  | _ => (digitsToNat cs : Int)

/-- Evaluation of `float(cleaned)` on a string matched by `^-?\d+\.\d+$`: the value is
`±(intPart.fracPart)`, returned as mantissa and decimal-exponent. -/
def parsePyDec (cs : List Char) : Int × Nat :=
  let signed := cs.head? = some '-'
  let body := match cs with
    | '-' :: rest => rest
    | _ => cs
  let intPart := body.takeWhile Char.isDigit
  let fracPart := (body.dropWhile Char.isDigit).tail
  let mant : Int := (digitsToNat intPart * 10 ^ fracPart.length
    + digitsToNat fracPart : Nat)
  (if signed then -mant else mant, fracPart.length)

def extractNumericValue (rawValue : String) : PyVal :=
  let cleaned := (pyStrip rawValue).data.filter (fun c => c ≠ ',')
  if decMatch cleaned then
    .vFloat (parsePyDec cleaned).1 (parsePyDec cleaned).2
  else if pyIsDigitStr cleaned ||
      (cleaned.head? = some '-' && pyIsDigitStr cleaned.tail) then
    .vInt (parsePyInt cleaned)
  else
    .vStr rawValue

/-! ## Nested mappings and `flatten_dict`

`NVal` is a value in a nested Python structure: a scalar/list leaf or a
sub-dict; `NDict` is an insertion-ordered dict of such values.
`flatten_dict` embeds the inner helper of `get_complete_game_data`
(bgg_scraper.py lines 569-577):

```python
async def flatten_dict(d, parent_key="", sep="."):
    items = {}
    for k, v in d.items():
        new_key = f"{parent_key}{sep}{k}" if parent_key else k
        if isinstance(v, dict):
            items.update(await flatten_dict(v, new_key, sep=sep))
        else:
            items[new_key] = v
    return items
```

`flattenLoop` is the `for` loop with its accumulator `items`. -/

mutual
inductive NVal where
  | leaf (v : PyVal)
  | node (d : NDict)
deriving DecidableEq, Repr

inductive NDict where
  | nil
  | cons (k : String) (v : NVal) (rest : NDict)
deriving DecidableEq, Repr
end

mutual
def flattenLoop (items : List (String × PyVal)) :
    NDict → String → String → List (String × PyVal)
  | .nil, _, _ => items
  | .cons k v rest, parentKey, sep =>
    let newKey := if parentKey = "" then k else parentKey ++ sep ++ k
    match v with
    | .leaf lv => flattenLoop (dictInsert items newKey lv) rest parentKey sep
    | .node d =>
      flattenLoop (dictUpdate items (flatten_dict d newKey sep)) rest parentKey sep

def flatten_dict (d : NDict) (parentKey : String) (sep : String) :
    List (String × PyVal) :=
  flattenLoop [] d parentKey sep
end

/-! The leaves of a nested structure together with their dot-joined paths, in
source order.  This is the specification flatten is compared against: one
pair per non-mapping leaf. -/

mutual
def leavesVal (parentKey sep : String) : NVal → List (String × PyVal)
  | .leaf lv => [(parentKey, lv)]
  | .node d => leavesDict d parentKey sep

def leavesDict : NDict → String → String → List (String × PyVal)
  | .nil, _, _ => []
  | .cons k v rest, parentKey, sep =>
    let newKey := if parentKey = "" then k else parentKey ++ sep ++ k
    leavesVal newKey sep v ++ leavesDict rest parentKey sep
end

/-! ## `normalize_res` and `get_complete_game_data`

A section task's result handed to `asyncio.gather(..., return_exceptions=True)`
is either its value or the exception it raised.  `normalize_res`
(bgg_scraper.py lines 595-612) maps an exception to `{}`: inside its
`isinstance(res, Exception)` branch, `res` is never a `dict` and never a
`list`, so `return {} if not isinstance(res, list) else []` always yields
`{}` — even for the `types` section whose successful shape is a list. -/

inductive SecRes where
  | val (v : NVal)
  | exc (msg : String)
deriving DecidableEq, Repr

def normalize_res : SecRes → NVal
  | .val v => v
  | .exc _ => .node .nil

/-- Embedding of `get_complete_game_data` after the five section tasks have completed
with results `r0..r4`: assemble the raw record (in the source's key order,
with the literal `url` leaf second) and flatten it with separator `"."`. -/
def get_complete_game_data (url : String) (r0 r1 r2 r3 r4 : SecRes) :
    List (String × PyVal) :=
  flatten_dict
    (.cons "title_and_year" (normalize_res r0)
      (.cons "url" (.leaf (.vStr url))
        (.cons "basic_info" (normalize_res r1)
          (.cons "stats" (normalize_res r2)
            (.cons "types" (normalize_res r3)
              (.cons "categories_mechanics" (normalize_res r4) .nil))))))
    "" "."

/-! ## `batch_extract_data`

The worker (bgg_scraper.py lines 650-666) wraps one entity's extraction:
an exception escaping `get_complete_game_data` is caught at the task
boundary and turned into `{"error": str(e)}`.  The per-entity behaviour of
the run is a parameter `run : String → Except String Flat` (error = the
exception's message).  `asyncio.as_completed` yields the workers in an
arbitrary completion order, so the collection loop
`results[url] = data` is folded over any permutation `comp` of the input
URLs. -/

def worker (run : String → Except String (List (String × PyVal)))
    (url : String) : String × List (String × PyVal) :=
  match run url with
  | .ok data => (url, data)
  | .error e => (url, [("error", .vStr e)])

def batch_extract_data (run : String → Except String (List (String × PyVal)))
    (comp : List String) : List (String × List (String × PyVal)) :=
  comp.foldl (fun results url =>
    dictInsert results (worker run url).1 (worker run url).2) []

/-! ## The admission gate (claim C2)

Modelled from the spec: `asyncio.Semaphore` itself is library code not in
`src/`; the spec describes it as "a counting admission gate: at most
`concurrency` entity-tasks may be mid-flight at once; additional entities
queue in source order and are admitted as slots free".  A state holds the
queued task indices (in source order), the admitted (mid-flight) tasks and
the finished ones; a step either admits the first waiter when a slot is
free, or finishes any mid-flight task (completion order unconstrained). -/

structure GateState where
  waiting : List Nat
  running : List Nat
  finished : List Nat
deriving DecidableEq, Repr

inductive GateStep (cap : Nat) : GateState → GateState → Prop where
  | enter (s : GateState) (t : Nat) (rest : List Nat)
      (hslot : s.running.length < cap) (hq : s.waiting = t :: rest) :
      GateStep cap s ⟨rest, s.running ++ [t], s.finished⟩
  | finish (s : GateState) (t : Nat) (ht : t ∈ s.running) :
      GateStep cap s ⟨s.waiting, s.running.erase t, t :: s.finished⟩

def gateInit (n : Nat) : GateState := ⟨List.range n, [], []⟩

inductive GateReachable (cap n : Nat) : GateState → Prop where
  | init : GateReachable cap n (gateInit n)
  | step {s s' : GateState} : GateReachable cap n s → GateStep cap s s' →
      GateReachable cap n s'

/-! ## Two-tier navigation (claim C6)

The navigation pattern shared by every section fetcher, here for
`get_game_stats` (bgg_scraper.py lines 296-338) and
`get_game_categories_and_mechanics` (lines 353-392):

```python
try:
    page = await self.context.new_page()
    try:
        await page.goto(url_, wait_until="networkidle", timeout=self.timeout)
    except PlaywrightTimeoutError:
        await page.goto(url_, wait_until="domcontentloaded", timeout=self.timeout)
    ... # scraping
except Exception as e:
    return {}          # ({"categories": [], "mechanics": []} for credits)
```

The outcome of one `goto` attempt per wait strategy is an oracle
`goto : WaitUntil → NavResult` (`timeout` = `PlaywrightTimeoutError`,
`failure` = any other exception).  `statsNavTrace` records which `goto`
calls the control flow performs, in order; the `_model` functions give the
section result, with the post-navigation scraping abstracted as the value
`afterNav` it would produce. -/

inductive WaitUntil where
  | networkidle
  | domcontentloaded
deriving DecidableEq, Repr

inductive NavResult where
  | success
  | timeout
  | failure (msg : String)
deriving DecidableEq, Repr

def statsNavTrace (goto : WaitUntil → NavResult) : List WaitUntil :=
  match goto .networkidle with
  | .success => [.networkidle]
  | .timeout => [.networkidle, .domcontentloaded]
  | .failure _ => [.networkidle]

def get_game_stats_model (goto : WaitUntil → NavResult)
    (afterNav : List (String × PyVal)) : List (String × PyVal) :=
  match goto .networkidle with
  | .success => afterNav
  | .timeout =>
    match goto .domcontentloaded with
    | .success => afterNav
    | _ => []
  | .failure _ => []

/-- The explicit empty result, `{"categories": [], "mechanics": []}`,
that `get_game_categories_and_mechanics` returns when a fetch fails. -/
def emptyCatMech : List (String × PyVal) :=
  [("categories", .vList []), ("mechanics", .vList [])]

def get_game_cat_mech_model (goto : WaitUntil → NavResult)
    (afterNav : List (String × PyVal)) : List (String × PyVal) :=
  match goto .networkidle with
  | .success => afterNav
  | .timeout =>
    match goto .domcontentloaded with
    | .success => afterNav
    | _ => emptyCatMech
  | .failure _ => emptyCatMech

/-! ## `batch_save_games` (claim C7)

Embedding of repository.py lines 119-122:

```python
with engine.begin() as conn:
    for i in range(0, len(records), batch_size):
        batch = records[i:i + batch_size]
        conn.execute(sql, batch)
```

`engine.begin()` opens ONE transaction around the whole loop; an exception
from any `execute` rolls the whole transaction back and propagates.  The
per-record effect of the upsert statement is a parameter
`upsert : DB → Rec → Option DB` (`none` = the execution raises).
`chunksOf` is the `records[i:i+batch_size]` slicing. -/

def chunksOf {α : Type} : Nat → List α → List (List α)
  | 0, _ => []
  | _, [] => []
  | n + 1, a :: rest =>
    (a :: rest).take (n + 1) :: chunksOf (n + 1) ((a :: rest).drop (n + 1))
termination_by _ l => l.length
decreasing_by
  simp only [List.drop_succ_cons, List.length_drop, List.length_cons]
  omega

def execRecs {DB Rec : Type} (upsert : DB → Rec → Option DB) (db : DB) :
    List Rec → Except String DB
  | [] => .ok db
  | r :: rs =>
    match upsert db r with
    | some db' => execRecs upsert db' rs
    | none => .error "statement execution failed"

def execChunks {DB Rec : Type} (upsert : DB → Rec → Option DB) (db : DB) :
    List (List Rec) → Except String DB
  | [] => .ok db
  | c :: cs =>
    match execRecs upsert db c with
    | .ok db' => execChunks upsert db' cs
    | .error e => .error e

/-- Returns the committed database state and whether the call succeeded:
on any failure the single enclosing transaction rolls back to `db`. -/
def batch_save_games {DB Rec : Type} (upsert : DB → Rec → Option DB)
    (db : DB) (records : List Rec) (batchSize : Nat) : DB × Bool :=
  match execChunks upsert db (chunksOf batchSize records) with
  | .ok db' => (db', true)
  | .error _ => (db, false)

/-- Concrete upsert effect used to exercise `batch_save_games`: the
database is the list of saved record ids, and executing record `666`
raises. -/
def exUpsert (db : List Nat) (r : Nat) : Option (List Nat) :=
  if r = 666 then none else some (db ++ [r])

/-! ## `DatabaseManager.save_game` (db/postgre.py lines 138-226)

One row of the `public.bgg` table created by `create_games_table`
(db/postgre.py lines 79-107); timestamps are modelled as naturals,
`FLOAT` columns as rationals.  `GameRecord` is the `flat` parameter dict
built from the `Game` model (lines 154-175). -/

structure BggRow where
  id : Nat
  bgg_id : Int
  title : String
  release_year : Option Int
  url : String
  min_players : Option Int
  max_players : Option Int
  min_play_time : Option Int
  max_play_time : Option Int
  min_age : Option Int
  avg_rating : Option Rat
  no_of_ratings : Option Int
  std_deviation : Option Rat
  weight : Option Rat
  overall_rank : Option Int
  own_count : Option Int
  categories : String
  mechanics : String
  created_at : Nat
  updated_at : Nat
deriving DecidableEq, Repr

structure GameRecord where
  bgg_id : Int
  title : String
  release_year : Option Int
  url : String
  min_players : Option Int
  max_players : Option Int
  min_play_time : Option Int
  max_play_time : Option Int
  min_age : Option Int
  avg_rating : Option Rat
  no_of_ratings : Option Int
  std_deviation : Option Rat
  weight : Option Rat
  overall_rank : Option Int
  own_count : Option Int
  categories : String
  mechanics : String
deriving DecidableEq, Repr

/-- The `DO UPDATE SET` list of the upsert statement (db/postgre.py lines
194-211): it names the fifteen data columns plus `updated_at`, and omits
`id`, `bgg_id`, `url` and `created_at`. -/
def rowConflictUpdate (row : BggRow) (r : GameRecord) (now : Nat) : BggRow :=
  { row with
    title := r.title
    release_year := r.release_year
    min_players := r.min_players
    max_players := r.max_players
    min_play_time := r.min_play_time
    max_play_time := r.max_play_time
    min_age := r.min_age
    avg_rating := r.avg_rating
    no_of_ratings := r.no_of_ratings
    std_deviation := r.std_deviation
    weight := r.weight
    overall_rank := r.overall_rank
    own_count := r.own_count
    categories := r.categories
    mechanics := r.mechanics
    updated_at := now }

/-- A freshly inserted row: `id` from the serial sequence, both timestamps
defaulted to the current time. -/
def freshRow (serial : Nat) (r : GameRecord) (now : Nat) : BggRow :=
  { id := serial
    bgg_id := r.bgg_id
    title := r.title
    release_year := r.release_year
    url := r.url
    min_players := r.min_players
    max_players := r.max_players
    min_play_time := r.min_play_time
    max_play_time := r.max_play_time
    min_age := r.min_age
    avg_rating := r.avg_rating
    no_of_ratings := r.no_of_ratings
    std_deviation := r.std_deviation
    weight := r.weight
    overall_rank := r.overall_rank
    own_count := r.own_count
    categories := r.categories
    mechanics := r.mechanics
    created_at := now
    updated_at := now }

/-- The effect on the table of one successful execution of `save_game`'s
`INSERT ... ON CONFLICT (bgg_id) DO UPDATE` statement at time `now`
(`serial` is the next `SERIAL` id).  On a `bgg_id` conflict every matching
row receives the new data columns and a refreshed `updated_at`; otherwise
a fresh row is appended. -/
def save_game (db : List BggRow) (serial : Nat) (now : Nat)
    (r : GameRecord) : List BggRow × Nat :=
  if db.any (fun row => row.bgg_id = r.bgg_id) then
    (db.map (fun row =>
      if row.bgg_id = r.bgg_id then rowConflictUpdate row r now else row),
     serial)
  else
    (db ++ [freshRow serial r now], serial + 1)

/-! Concrete fixtures for the claims' counterexamples and witnesses. -/

/-- The nested mapping `{"a": {"b": 1, "c": {"d": 2}}, "e": 3}` from the
spec's flatten example. -/
def exampleDict : NDict :=
  .cons "a"
    (.node (.cons "b" (.leaf (.vInt 1))
      (.cons "c" (.node (.cons "d" (.leaf (.vInt 2)) .nil)) .nil)))
    (.cons "e" (.leaf (.vInt 3)) .nil)

/-- The nested mapping `{"a": {"b": 1}, "a.b": 2}`: a valid Python dict
whose two leaves share the dotted path `"a.b"`. -/
def collidingDict : NDict :=
  .cons "a" (.node (.cons "b" (.leaf (.vInt 1)) .nil))
    (.cons "a.b" (.leaf (.vInt 2)) .nil)

/-- A concrete record for the timestamp claims. -/
def exRecord : GameRecord :=
  { bgg_id := 174430
    title := "Gloomhaven"
    release_year := some 2017
    url := "https://boardgamegeek.com/boardgame/174430/gloomhaven"
    min_players := some 1
    max_players := some 4
    min_play_time := some 60
    max_play_time := some 120
    min_age := some 14
    avg_rating := none
    no_of_ratings := some 60000
    std_deviation := none
    weight := none
    overall_rank := some 1
    own_count := some 100000
    categories := "Adventure, Fantasy"
    mechanics := "Campaign, Cooperative Game" }

/-- A concrete per-entity behaviour where every extraction succeeds. -/
def runExGood (u : String) : Except String (List (String × PyVal)) :=
  .ok [("url", .vStr u)]

/-- A concrete per-entity behaviour where the entity `"bad"` raises and
every other entity succeeds. -/
def runExPartial (u : String) : Except String (List (String × PyVal)) :=
  if u = "bad" then .error "net down" else runExGood u

/-! ## Dictionary lemmas -/

theorem dictLookup_insert_self {α : Type} (m : List (String × α)) (k : String)
    (v : α) : dictLookup (dictInsert m k v) k = some v := by
  induction m with
  | nil => simp [dictInsert, dictLookup]
  | cons p rest ih =>
    by_cases h : p.1 = k
    · simp [dictInsert, dictLookup, h]
    · simp [dictInsert, dictLookup, h, ih]

theorem dictLookup_insert_ne {α : Type} (m : List (String × α)) (k k' : String)
    (v : α) (h : k' ≠ k) :
    dictLookup (dictInsert m k v) k' = dictLookup m k' := by
  have hk : ¬k = k' := fun h' => h h'.symm
  induction m with
  | nil => simp [dictInsert, dictLookup, hk]
  | cons p rest ih =>
    by_cases hp : p.1 = k
    · have hpk : ¬p.1 = k' := by rw [hp]; exact hk
      simp [dictInsert, dictLookup, hp, hk, hpk]
    · by_cases hk' : p.1 = k'
      · simp only [dictInsert]
        rw [if_neg hp]
        simp [dictLookup, hk']
      · simp [dictInsert, dictLookup, hp, hk', ih]

theorem mem_keys_insert {α : Type} (m : List (String × α)) (k k' : String)
    (v : α) :
    k' ∈ (dictInsert m k v).map Prod.fst ↔ k' ∈ m.map Prod.fst ∨ k' = k := by
  induction m with
  | nil => simp [dictInsert]
  | cons p rest ih =>
    by_cases hp : p.1 = k
    · simp only [dictInsert, hp, if_true, List.map_cons, List.mem_cons]
      constructor
      · rintro (h | h)
        · exact Or.inr h
        · exact Or.inl (Or.inr h)
      · rintro ((h | h) | h)
        · exact Or.inl (hp ▸ h)
        · exact Or.inr h
        · exact Or.inl h
    · simp only [dictInsert, hp, if_false, List.map_cons, List.mem_cons, ih]
      tauto

theorem nodup_keys_insert {α : Type} (m : List (String × α)) (k : String)
    (v : α) (h : (m.map Prod.fst).Nodup) :
    ((dictInsert m k v).map Prod.fst).Nodup := by
  induction m with
  | nil => simp [dictInsert]
  | cons p rest ih =>
    simp only [List.map_cons, List.nodup_cons] at h
    by_cases hp : p.1 = k
    · simp only [dictInsert, hp, if_true, List.map_cons, List.nodup_cons]
      exact ⟨hp ▸ h.1, h.2⟩
    · simp only [dictInsert, hp, if_false, List.map_cons, List.nodup_cons]
      refine ⟨fun hc => ?_, ih h.2⟩
      rcases (mem_keys_insert rest k p.1 v).mp hc with hm | he
      · exact h.1 hm
      · exact hp he

theorem dictInsert_append_of_not_mem {α : Type} (m : List (String × α))
    (k : String) (v : α) (h : k ∉ m.map Prod.fst) :
    dictInsert m k v = m ++ [(k, v)] := by
  induction m with
  | nil => simp [dictInsert]
  | cons p rest ih =>
    simp only [List.map_cons, List.mem_cons, not_or] at h
    have hp : ¬p.1 = k := fun hc => h.1 hc.symm
    simp [dictInsert, hp, ih h.2]

theorem dictUpdate_append_of_disjoint {α : Type} (m other : List (String × α))
    (hdis : ∀ k ∈ other.map Prod.fst, k ∉ m.map Prod.fst)
    (hnod : (other.map Prod.fst).Nodup) :
    dictUpdate m other = m ++ other := by
  induction other generalizing m with
  | nil => simp [dictUpdate]
  | cons p rest ih =>
    simp only [List.map_cons, List.nodup_cons] at hnod
    have h1 : p.1 ∉ m.map Prod.fst := hdis p.1 (by simp)
    have step : dictUpdate m (p :: rest) = dictUpdate (m ++ [p]) rest := by
      simp [dictUpdate, dictInsert_append_of_not_mem m p.1 p.2 h1]
    rw [step, ih (m ++ [p]) ?_ hnod.2, List.append_assoc]
    · rfl
    · intro k hk
      simp only [List.map_append, List.mem_append, List.map_cons, not_or]
      refine ⟨hdis k (by simp [hk]), ?_⟩
      simp only [List.map_nil, List.mem_cons, List.not_mem_nil, or_false]
      exact fun he => hnod.1 (he ▸ hk)

theorem dictLookup_update_of_not_mem {α : Type} (m other : List (String × α))
    (k : String) (h : k ∉ other.map Prod.fst) :
    dictLookup (dictUpdate m other) k = dictLookup m k := by
  induction other generalizing m with
  | nil => simp [dictUpdate]
  | cons p rest ih =>
    simp only [List.map_cons, List.mem_cons, not_or] at h
    have step : dictUpdate m (p :: rest) = dictUpdate (dictInsert m p.1 p.2) rest := by
      simp [dictUpdate]
    rw [step, ih _ h.2, dictLookup_insert_ne _ _ _ _ h.1]

theorem mem_keys_update {α : Type} (m other : List (String × α)) (k : String) :
    k ∈ (dictUpdate m other).map Prod.fst ↔
      k ∈ m.map Prod.fst ∨ k ∈ other.map Prod.fst := by
  induction other generalizing m with
  | nil => simp [dictUpdate]
  | cons p rest ih =>
    have step : dictUpdate m (p :: rest) = dictUpdate (dictInsert m p.1 p.2) rest := by
      simp [dictUpdate]
    rw [step, ih]
    simp only [mem_keys_insert, List.map_cons, List.mem_cons]
    tauto

/-! ## Claim theorems -/

/-- Claim C4: `_extract_numeric_value` is total and never raises: every input
string yields a value — a float when the stripped, comma-free form matches
the signed decimal pattern (precedence over the integer check), an int when
it passes the signed integer check, and otherwise the *original* string
unchanged; in particular `"1,234"` gives int `1234`, `"12.50"` gives the
float of value `12.5`, `"N/A"` comes back unchanged, `"-3"` gives int `-3`,
and `"-1.0"` takes the float branch. -/
theorem extract_numeric_value_correct :
    extractNumericValue "1,234" = .vInt 1234 ∧
    (extractNumericValue "12.50" = .vFloat 1250 2 ∧
      floatDenote 1250 2 = (12.5 : Rat)) ∧
    extractNumericValue "N/A" = .vStr "N/A" ∧
    extractNumericValue "-3" = .vInt (-3) ∧
    (extractNumericValue "-1.0" = .vFloat (-10) 1 ∧
      floatDenote (-10) 1 = (-1 : Rat)) ∧
    (∀ s : String,
      decMatch ((pyStrip s).data.filter (fun c => c ≠ ',')) = true →
      ∃ m e, extractNumericValue s = .vFloat m e) ∧
    (∀ s : String,
      decMatch ((pyStrip s).data.filter (fun c => c ≠ ',')) = false →
      (pyIsDigitStr ((pyStrip s).data.filter (fun c => c ≠ ',')) ||
        (((pyStrip s).data.filter (fun c => c ≠ ',')).head? = some '-' &&
          pyIsDigitStr ((pyStrip s).data.filter (fun c => c ≠ ',')).tail)) = false →
      extractNumericValue s = .vStr s) ∧
    (∀ s : String, (∃ m e, extractNumericValue s = .vFloat m e) ∨
      (∃ n, extractNumericValue s = .vInt n) ∨
      extractNumericValue s = .vStr s) := by
  refine ⟨by decide, ⟨by decide, by norm_num [floatDenote]⟩, by decide, by decide,
    ⟨by decide, by norm_num [floatDenote]⟩, ?_, ?_, ?_⟩
  · intro s h
    simp only [extractNumericValue, h, if_true]
    exact ⟨_, _, rfl⟩
  · intro s h1 h2
    simp only [extractNumericValue, h1, h2]
    simp
  · intro s
    by_cases h1 : decMatch ((pyStrip s).data.filter (fun c => c ≠ ',')) = true
    · refine Or.inl ?_
      simp only [extractNumericValue, h1, if_true]
      exact ⟨_, _, rfl⟩
    · by_cases h2 : (pyIsDigitStr ((pyStrip s).data.filter (fun c => c ≠ ',')) ||
        (((pyStrip s).data.filter (fun c => c ≠ ',')).head? = some '-' &&
          pyIsDigitStr ((pyStrip s).data.filter (fun c => c ≠ ',')).tail)) = true
      · refine Or.inr (Or.inl ?_)
        simp only [extractNumericValue, Bool.not_eq_true] at h1 ⊢
        simp only [h1, h2]
        simp only [Bool.false_eq_true, if_false, if_true]
        exact ⟨_, rfl⟩
      · refine Or.inr (Or.inr ?_)
        simp only [Bool.not_eq_true] at h1 h2
        simp only [extractNumericValue, h1, h2]
        simp

/-- Witness for C4: the float-precedence clause applied at `"0.5"`. -/
theorem extract_numeric_value_correct_witness :
    ∃ m e, extractNumericValue "0.5" = .vFloat m e :=
  extract_numeric_value_correct.2.2.2.2.2.1 "0.5" (by decide)

/-! ## Batch collection lemmas -/

theorem worker_fst (run : String → Except String (List (String × PyVal)))
    (url : String) : (worker run url).1 = url := by
  unfold worker
  cases run url <;> rfl

theorem dictLookup_batch_collect
    (run : String → Except String (List (String × PyVal)))
    (comp : List String) (acc : List (String × List (String × PyVal)))
    (u : String) :
    dictLookup (comp.foldl (fun results url =>
      dictInsert results (worker run url).1 (worker run url).2) acc) u =
    if u ∈ comp then some ((worker run u).2) else dictLookup acc u := by
  induction comp generalizing acc with
  | nil => simp
  | cons c rest ih =>
    rw [List.foldl_cons, ih]
    by_cases hm : u ∈ rest
    · simp [hm]
    · by_cases he : u = c
      · subst he
        rw [if_neg hm, worker_fst, dictLookup_insert_self]
        simp
      · rw [if_neg hm, worker_fst, dictLookup_insert_ne _ _ _ _ he]
        have hnotin : u ∉ c :: rest := by simp [he, hm]
        rw [if_neg hnotin]

theorem mem_keys_batch_collect
    (run : String → Except String (List (String × PyVal)))
    (comp : List String) (acc : List (String × List (String × PyVal)))
    (k : String) :
    k ∈ (comp.foldl (fun results url =>
      dictInsert results (worker run url).1 (worker run url).2) acc).map Prod.fst ↔
    k ∈ acc.map Prod.fst ∨ k ∈ comp := by
  induction comp generalizing acc with
  | nil => simp
  | cons c rest ih =>
    rw [List.foldl_cons, ih, mem_keys_insert, worker_fst]
    simp only [List.mem_cons]
    tauto

theorem nodup_keys_batch_collect
    (run : String → Except String (List (String × PyVal)))
    (comp : List String) (acc : List (String × List (String × PyVal)))
    (h : (acc.map Prod.fst).Nodup) :
    ((comp.foldl (fun results url =>
      dictInsert results (worker run url).1 (worker run url).2) acc).map
        Prod.fst).Nodup := by
  induction comp generalizing acc with
  | nil => exact h
  | cons c rest ih =>
    rw [List.foldl_cons]
    exact ih _ (nodup_keys_insert _ _ _ h)

/-- Claim C1: for every input sequence of entity URLs and every completion
order of the workers, `batch_extract_data` yields a result mapping with
exactly one outcome per input entity: each input URL is bound either to
its extracted record or to the tagged failure `{"error": reason}`, the
result's keys are exactly the distinct input URLs (so its size is the
number of input entities, equal to `urls.length` when the URLs are
distinct), and the mapping's content does not depend on the completion
order. -/
theorem batch_extract_data_complete
    (run : String → Except String (List (String × PyVal)))
    (urls comp : List String) (hperm : comp.Perm urls) :
    (∀ u ∈ urls, dictLookup (batch_extract_data run comp) u =
      some ((worker run u).2)) ∧
    (∀ u d, u ∈ urls → run u = .ok d →
      dictLookup (batch_extract_data run comp) u = some d) ∧
    (∀ u e, u ∈ urls → run u = .error e →
      dictLookup (batch_extract_data run comp) u =
        some [("error", .vStr e)]) ∧
    ((batch_extract_data run comp).map Prod.fst).Nodup ∧
    (∀ k, k ∈ (batch_extract_data run comp).map Prod.fst ↔ k ∈ urls) ∧
    ((batch_extract_data run comp).map Prod.fst).Perm urls.dedup ∧
    (urls.Nodup → (batch_extract_data run comp).length = urls.length) ∧
    (∀ comp', comp'.Perm urls → ∀ u,
      dictLookup (batch_extract_data run comp') u =
      dictLookup (batch_extract_data run comp) u) := by
  have hlookup : ∀ u ∈ urls, dictLookup (batch_extract_data run comp) u =
      some ((worker run u).2) := by
    intro u hu
    unfold batch_extract_data
    rw [dictLookup_batch_collect, if_pos (hperm.mem_iff.mpr hu)]
  have hkeys : ∀ k, k ∈ (batch_extract_data run comp).map Prod.fst ↔
      k ∈ urls := by
    intro k
    unfold batch_extract_data
    rw [mem_keys_batch_collect]
    simp [hperm.mem_iff]
  have hnodup : ((batch_extract_data run comp).map Prod.fst).Nodup := by
    unfold batch_extract_data
    exact nodup_keys_batch_collect run comp [] (by simp)
  have hpermdedup :
      ((batch_extract_data run comp).map Prod.fst).Perm urls.dedup := by
    refine List.perm_of_nodup_nodup_toFinset_eq hnodup urls.nodup_dedup ?_
    ext a
    simp [List.mem_toFinset, hkeys, List.mem_dedup]
  refine ⟨hlookup, ?_, ?_, hnodup, hkeys, hpermdedup, ?_, ?_⟩
  · intro u d hu hok
    rw [hlookup u hu]
    unfold worker
    rw [hok]
  · intro u e hu herr
    rw [hlookup u hu]
    unfold worker
    rw [herr]
  · intro hnd
    have h1 : (batch_extract_data run comp).length =
        ((batch_extract_data run comp).map Prod.fst).length := by
      rw [List.length_map]
    rw [h1, hpermdedup.length_eq, List.dedup_eq_self.mpr hnd]
  · intro comp' hperm' u
    unfold batch_extract_data
    rw [dictLookup_batch_collect, dictLookup_batch_collect]
    by_cases hu : u ∈ urls
    · rw [if_pos (hperm'.mem_iff.mpr hu), if_pos (hperm.mem_iff.mpr hu)]
    · rw [if_neg (fun hc => hu (hperm'.mem_iff.mp hc)),
        if_neg (fun hc => hu (hperm.mem_iff.mp hc))]

/-- Witness for C1: a three-entity batch in which `"bad"` fails, collected
in an order different from the source order. -/
theorem batch_extract_data_complete_witness :
    dictLookup (batch_extract_data runExPartial ["bad", "b", "a"]) "a" =
      some [("url", .vStr "a")] :=
  (batch_extract_data_complete runExPartial ["a", "b", "bad"]
    ["bad", "b", "a"] (by decide)).2.1 "a" [("url", .vStr "a")]
    (by simp) rfl

/-- Claim C5: an exception escaping an entity's extraction task is caught at
the task boundary and recorded as `{"error": str(e)}` for that entity; it
neither removes nor alters any sibling entity's outcome (the result for
every other URL is the same as in a run where that entity does not fail),
and the batch still completes with one outcome for every input entity. -/
theorem batch_extract_failure_isolated
    (run run' : String → Except String (List (String × PyVal)))
    (urls comp : List String) (ubad e : String)
    (hperm : comp.Perm urls) (hmem : ubad ∈ urls)
    (hbad : run ubad = .error e)
    (hagree : ∀ u, u ≠ ubad → run' u = run u) :
    dictLookup (batch_extract_data run comp) ubad =
      some [("error", .vStr e)] ∧
    (∀ u ∈ urls, u ≠ ubad →
      dictLookup (batch_extract_data run comp) u =
      dictLookup (batch_extract_data run' comp) u) ∧
    (∀ u ∈ urls, ∃ d, dictLookup (batch_extract_data run comp) u = some d) := by
  have hlookup : ∀ u ∈ urls, dictLookup (batch_extract_data run comp) u =
      some ((worker run u).2) := by
    intro u hu
    unfold batch_extract_data
    rw [dictLookup_batch_collect, if_pos (hperm.mem_iff.mpr hu)]
  refine ⟨?_, ?_, ?_⟩
  · rw [hlookup ubad hmem]
    unfold worker
    rw [hbad]
  · intro u hu hne
    rw [hlookup u hu]
    have hlookup' : dictLookup (batch_extract_data run' comp) u =
        some ((worker run' u).2) := by
      unfold batch_extract_data
      rw [dictLookup_batch_collect, if_pos (hperm.mem_iff.mpr hu)]
    rw [hlookup']
    unfold worker
    rw [hagree u hne]
  · intro u hu
    exact ⟨_, hlookup u hu⟩

/-- Witness for C5: in the three-entity batch, the failing entity `"bad"`
is recorded as a tagged failure with its cause. -/
theorem batch_extract_failure_isolated_witness :
    dictLookup (batch_extract_data runExPartial ["b", "bad", "a"]) "bad" =
      some [("error", .vStr "net down")] :=
  (batch_extract_failure_isolated runExPartial runExGood
    ["a", "b", "bad"] ["b", "bad", "a"] "bad" "net down" (by decide)
    (by simp) rfl
    (fun u hu => by simp [runExPartial, hu])).1

/-! ## Admission gate (C2) and navigation fallback (C6) -/

/-- Claim C2: in every reachable state of the admission gate at most `cap`
entity-extraction tasks are mid-flight at once, and the queue of
not-yet-admitted entities is always a suffix of the source-ordered input
queue: waiters are admitted in source order as slots free. -/
theorem admission_gate_bound (cap n : Nat) (s : GateState)
    (h : GateReachable cap n s) :
    s.running.length ≤ cap ∧ s.waiting.IsSuffix (List.range n) := by
  induction h with
  | init => exact ⟨by simp [gateInit], List.suffix_refl _⟩
  | @step s1 s2 hr hs ih =>
    cases hs with
    | enter t rest hslot hq =>
      refine ⟨?_, ?_⟩
      · simp only [List.length_append, List.length_singleton]
        omega
      · have h1 : rest.IsSuffix s1.waiting := by
          rw [hq]
          exact List.suffix_cons t rest
        exact h1.trans ih.2
    | finish t ht =>
      exact ⟨le_trans (List.erase_sublist t s1.running).length_le ih.1, ih.2⟩

/-- Witness for C2: with cap 2 and 3 entities, the state after admitting
the first entity is reachable and satisfies the bound, with the two
remaining entities still queued in source order. -/
theorem admission_gate_bound_witness :
    (⟨[1, 2], [0], []⟩ : GateState).running.length ≤ 2 ∧
    (⟨[1, 2], [0], []⟩ : GateState).waiting.IsSuffix (List.range 3) := by
  refine admission_gate_bound 2 3 ⟨[1, 2], [0], []⟩ ?_
  have h1 : GateStep 2 (gateInit 3) ⟨[1, 2], [0], []⟩ := by
    have h2 := @GateStep.enter 2 (gateInit 3) 0 [1, 2] (by decide) (by decide)
    simpa [gateInit] using h2
  exact GateReachable.step GateReachable.init h1

/-- Claim C6: every section-fetch navigation attempts the `networkidle`
wait condition first; exactly when that attempt times out, it retries
exactly once with `domcontentloaded`; and when both tiers fail the
section fetch returns its explicit empty "section unavailable" value
(`{}` for the stats page, `{"categories": [], "mechanics": []}` for the
credits page) instead of propagating the error. -/
theorem navigation_two_tier (goto : WaitUntil → NavResult)
    (afterNav : List (String × PyVal)) :
    (statsNavTrace goto).head? = some .networkidle ∧
    (goto .networkidle = .timeout ↔
      statsNavTrace goto = [.networkidle, .domcontentloaded]) ∧
    (goto .networkidle ≠ .timeout → statsNavTrace goto = [.networkidle]) ∧
    (goto .networkidle = .timeout → goto .domcontentloaded ≠ .success →
      get_game_stats_model goto afterNav = [] ∧
      get_game_cat_mech_model goto afterNav = emptyCatMech) ∧
    (goto .networkidle = .success →
      get_game_stats_model goto afterNav = afterNav) ∧
    (goto .networkidle = .timeout → goto .domcontentloaded = .success →
      get_game_stats_model goto afterNav = afterNav) := by
  refine ⟨?_, ?_, ?_, ?_, ?_, ?_⟩
  · cases h : goto .networkidle <;> simp [statsNavTrace, h]
  · constructor
    · intro h
      simp [statsNavTrace, h]
    · intro h
      cases hn : goto .networkidle
      · simp [statsNavTrace, hn] at h
      · rfl
      · simp [statsNavTrace, hn] at h
  · intro h
    cases hn : goto .networkidle
    · simp [statsNavTrace, hn]
    · exact absurd hn h
    · simp [statsNavTrace, hn]
  · intro h1 h2
    cases hd : goto .domcontentloaded
    · exact absurd hd h2
    · exact ⟨by simp [get_game_stats_model, h1, hd],
        by simp [get_game_cat_mech_model, h1, hd]⟩
    · exact ⟨by simp [get_game_stats_model, h1, hd],
        by simp [get_game_cat_mech_model, h1, hd]⟩
  · intro h
    simp [get_game_stats_model, h]
  · intro h1 h2
    simp [get_game_stats_model, h1, h2]

/-- Witness for C6: an oracle for which both navigation tiers time out —
the trace shows the single retry and both section fetches come back with
their empty results. -/
theorem navigation_two_tier_witness :
    statsNavTrace (fun _ => NavResult.timeout) =
      [.networkidle, .domcontentloaded] ∧
    get_game_stats_model (fun _ => NavResult.timeout)
      [("weight", .vFloat 35 1)] = [] ∧
    get_game_cat_mech_model (fun _ => NavResult.timeout)
      [("weight", .vFloat 35 1)] = emptyCatMech := by
  have h := navigation_two_tier (fun _ => NavResult.timeout)
    [("weight", .vFloat 35 1)]
  exact ⟨h.2.1.1 rfl, (h.2.2.2.1 rfl (by simp)).1, (h.2.2.2.1 rfl (by simp)).2⟩

/-! ## Batch persistence (C7) -/

theorem execRecs_append {DB Rec : Type} (upsert : DB → Rec → Option DB)
    (db : DB) (a b : List Rec) :
    execRecs upsert db (a ++ b) =
      match execRecs upsert db a with
      | .ok db' => execRecs upsert db' b
      | .error e => .error e := by
  induction a generalizing db with
  | nil => simp [execRecs]
  | cons r rest ih =>
    simp only [List.cons_append, execRecs]
    cases upsert db r with
    | some db' => exact ih db'
    | none => rfl

/-- Executing the chunked loop is executing all records in sequence: the
chunk boundaries are invisible because there is no commit between chunks. -/
theorem execChunks_chunksOf {DB Rec : Type} (upsert : DB → Rec → Option DB)
    (n : Nat) (l : List Rec) (hn : 0 < n) (db : DB) :
    execChunks upsert db (chunksOf n l) = execRecs upsert db l := by
  induction n, l using chunksOf.induct generalizing db with
  | case1 l => omega
  | case2 n _ => simp [chunksOf, execChunks, execRecs]
  | case3 n a rest ih =>
    simp only [chunksOf, execChunks]
    have hsplit : execRecs upsert db ((a :: rest).take (n + 1) ++
        (a :: rest).drop (n + 1)) = execRecs upsert db (a :: rest) := by
      rw [List.take_append_drop]
    rw [← hsplit, execRecs_append]
    cases hx : execRecs upsert db ((a :: rest).take (n + 1)) with
    | ok db' => exact ih (Nat.succ_pos n) db'
    | error e => rfl

/-- Claim C7, amended: in `batch_save_games`, records are partitioned into
fixed-size chunks but every chunk is executed inside the one transaction
opened by `engine.begin()`: the call commits exactly the sequential
execution of all records when every statement succeeds, and on any
failure the whole batch — including chunks executed before the failing
one — is rolled back to the initial state. -/
theorem batch_save_games_atomic {DB Rec : Type} (upsert : DB → Rec → Option DB)
    (db : DB) (records : List Rec) (batchSize : Nat) (hn : 0 < batchSize) :
    (∀ db', execRecs upsert db records = .ok db' →
      batch_save_games upsert db records batchSize = (db', true)) ∧
    (∀ e, execRecs upsert db records = .error e →
      batch_save_games upsert db records batchSize = (db, false)) := by
  constructor
  · intro db' h
    unfold batch_save_games
    rw [execChunks_chunksOf upsert batchSize records hn, h]
  · intro e h
    unfold batch_save_games
    rw [execChunks_chunksOf upsert batchSize records hn, h]

/-- Witness for C7 (amended): a batch of three records in chunks of two,
all succeeding, commits all three. -/
theorem batch_save_games_atomic_witness :
    batch_save_games exUpsert [] [1, 2, 3] 2 = ([1, 2, 3], true) :=
  (batch_save_games_atomic exUpsert [] [1, 2, 3] 2 (by decide)).1
    [1, 2, 3] rfl

/-- Counterexample for C7 as stated: with records `[1, 2, 666]` and chunk
size 2, the first chunk `[1, 2]` executes successfully on its own, yet
after the second chunk fails the committed state is the initial empty
database — the failure in chunk 2 rolled back the records of chunk 1, so
chunks are not committed in their own transactions. -/
theorem batch_save_games_not_per_chunk :
    batch_save_games exUpsert [] [1, 2, 666] 2 = ([], false) ∧
    execRecs exUpsert [] [1, 2] = .ok [1, 2] ∧
    ([] : List Nat) ≠ [1, 2] := by
  refine ⟨?_, rfl, by simp⟩
  simp [batch_save_games, execChunks, execRecs, chunksOf, exUpsert]

/-! ## Upsert semantics (C8, C9) -/

/-- Claim C8: when `save_game`'s upsert hits an existing row (conflict on
`bgg_id`), the result keeps the table's size and the serial sequence, all
fifteen data columns of the conflicting row are overwritten with the new
record's values and `updated_at` is refreshed to the write time, while the
conflict key `bgg_id` and the immutable identity fields — the surrogate
primary key `id`, the unique canonical `url` and the creation timestamp
`created_at` — keep their stored values; rows for other keys are
untouched. -/
theorem save_game_conflict_update (db : List BggRow) (serial now : Nat)
    (r : GameRecord) (row : BggRow) (hmem : row ∈ db)
    (hid : row.bgg_id = r.bgg_id) :
    (save_game db serial now r).2 = serial ∧
    (save_game db serial now r).1.length = db.length ∧
    (∀ other ∈ db, other.bgg_id ≠ r.bgg_id →
      other ∈ (save_game db serial now r).1) ∧
    (∃ row' ∈ (save_game db serial now r).1,
      row'.id = row.id ∧ row'.bgg_id = row.bgg_id ∧ row'.url = row.url ∧
      row'.created_at = row.created_at ∧
      row'.title = r.title ∧ row'.release_year = r.release_year ∧
      row'.min_players = r.min_players ∧ row'.max_players = r.max_players ∧
      row'.min_play_time = r.min_play_time ∧
      row'.max_play_time = r.max_play_time ∧
      row'.min_age = r.min_age ∧ row'.avg_rating = r.avg_rating ∧
      row'.no_of_ratings = r.no_of_ratings ∧
      row'.std_deviation = r.std_deviation ∧
      row'.weight = r.weight ∧ row'.overall_rank = r.overall_rank ∧
      row'.own_count = r.own_count ∧ row'.categories = r.categories ∧
      row'.mechanics = r.mechanics ∧ row'.updated_at = now) := by
  have hany : (db.any (fun row => row.bgg_id = r.bgg_id)) = true :=
    List.any_eq_true.mpr ⟨row, hmem, by simp [hid]⟩
  unfold save_game
  rw [if_pos hany]
  refine ⟨rfl, by simp, ?_, ?_⟩
  · intro other hother hne
    have hothereq :
        (if other.bgg_id = r.bgg_id then rowConflictUpdate other r now
          else other) = other := if_neg hne
    exact hothereq ▸ List.mem_map_of_mem _ hother
  · refine ⟨rowConflictUpdate row r now, ?_, ?_⟩
    · have hroweq : (if row.bgg_id = r.bgg_id then rowConflictUpdate row r now
          else row) = rowConflictUpdate row r now := if_pos hid
      exact hroweq ▸ List.mem_map_of_mem _ hmem
    · simp [rowConflictUpdate]

/-- Witness for C8: re-upserting `exRecord` into a table holding its row
keeps the serial sequence unchanged. -/
theorem save_game_conflict_update_witness :
    (save_game [freshRow 1 exRecord 10] 2 20 exRecord).2 = 2 :=
  (save_game_conflict_update [freshRow 1 exRecord 10] 2 20 exRecord
    (freshRow 1 exRecord 10) (by simp) rfl).1

/-- Counterexample for C9 as stated: inserting `exRecord` at time 10 and
re-upserting the identical record at time 20 changes the stored row's
`updated_at` from 10 to 20 — the `DO UPDATE SET ... updated_at =
CURRENT_TIMESTAMP` clause fires unconditionally, so the timestamp is not
invariant across a no-op re-upsert of identical content. -/
theorem save_game_timestamp_not_invariant :
    ((save_game [] 1 10 exRecord).1.map (fun row => row.updated_at)) = [10] ∧
    ((save_game (save_game [] 1 10 exRecord).1 2 20 exRecord).1.map
      (fun row => row.updated_at)) = [20] ∧
    (20 : Nat) ≠ 10 := by
  refine ⟨rfl, rfl, by simp⟩

/-- Claim C9, amended: upserting the same `bgg_id` twice — with identical
content or not — leaves exactly one row for that key, holding the second
write's values; `updated_at` is refreshed to the second write's time on
every conflicting upsert, including re-upserts of identical content (so it
advances whenever the clock does, and never reads earlier than the first
write's), while `created_at` keeps the first write's time. -/
theorem save_game_reupsert_refreshes (db : List BggRow)
    (serial serial2 now now' : Nat) (r : GameRecord)
    (h : ∀ row ∈ db, row.bgg_id ≠ r.bgg_id) :
    (save_game (save_game db serial now r).1 serial2 now' r).1 =
      db ++ [rowConflictUpdate (freshRow serial r now) r now'] ∧
    (db ++ [rowConflictUpdate (freshRow serial r now) r now']).countP
      (fun row => row.bgg_id == r.bgg_id) = 1 ∧
    (rowConflictUpdate (freshRow serial r now) r now').updated_at = now' ∧
    (rowConflictUpdate (freshRow serial r now) r now').created_at = now ∧
    (now ≤ now' → (freshRow serial r now).updated_at ≤
      (rowConflictUpdate (freshRow serial r now) r now').updated_at) := by
  have hany1 : (db.any (fun row => row.bgg_id = r.bgg_id)) = false := by
    rw [List.any_eq_false]
    intro row hrow
    simp [h row hrow]
  have hfirst : (save_game db serial now r).1 = db ++ [freshRow serial r now] := by
    unfold save_game
    rw [if_neg (by rw [hany1]; simp)]
  refine ⟨?_, ?_, rfl, rfl, fun hle => hle⟩
  · rw [hfirst]
    have hany2 : ((db ++ [freshRow serial r now]).any
        (fun row => row.bgg_id = r.bgg_id)) = true :=
      List.any_eq_true.mpr ⟨freshRow serial r now, by simp, by simp [freshRow]⟩
    unfold save_game
    rw [if_pos hany2, List.map_append]
    have hmapdb : db.map (fun row => if row.bgg_id = r.bgg_id then
        rowConflictUpdate row r now' else row) = db := by
      conv_rhs => rw [← List.map_id db]
      apply List.map_congr_left
      intro a ha
      simp [h a ha]
    rw [hmapdb]
    simp [freshRow]
  · rw [List.countP_append]
    have h0 : db.countP (fun row => row.bgg_id == r.bgg_id) = 0 := by
      rw [List.countP_eq_zero]
      intro a ha
      simp [h a ha]
    rw [h0]
    simp [List.countP_cons, rowConflictUpdate, freshRow]

/-- Witness for C9 (amended): the re-upserted Gloomhaven row's
`updated_at` equals the second write's time. -/
theorem save_game_reupsert_refreshes_witness :
    (rowConflictUpdate (freshRow 1 exRecord 10) exRecord 20).updated_at = 20 :=
  (save_game_reupsert_refreshes [] 1 2 10 20 exRecord (by simp)).2.2.1

/-! ## Flatten lemmas (C3, C10) -/

theorem append_ne_empty_left (s t : String) (h : s ≠ "") : s ++ t ≠ "" := by
  intro hc
  apply h
  have h2 := congrArg String.length hc
  rw [String.length_append] at h2
  have h3 : s.length = 0 := by
    have h4 : ("" : String).length = 0 := rfl
    omega
  cases s with
  | mk data =>
    cases data with
    | nil => rfl
    | cons c cs => simp [String.length] at h3

mutual

theorem flattenLoop_eq_append (d : NDict) (parentKey sep : String)
    (items : List (String × PyVal))
    (h : (items.map Prod.fst ++
      (leavesDict d parentKey sep).map Prod.fst).Nodup) :
    flattenLoop items d parentKey sep = items ++ leavesDict d parentKey sep := by
  cases d with
  | nil => simp [flattenLoop, leavesDict]
  | cons k v rest =>
    cases v with
    | leaf lv =>
      simp only [flattenLoop, leavesDict, leavesVal, List.singleton_append]
        at h ⊢
      rw [dictInsert_append_of_not_mem]
      · rw [flattenLoop_eq_append rest parentKey sep _ ?hrec]
        · simp
        case hrec =>
          simp only [List.map_append, List.map_cons, List.map_nil]
          rw [List.append_assoc]
          simpa using h
      · intro hc
        rw [List.nodup_append] at h
        exact h.2.2 hc (by simp)
    | node d' =>
      simp only [flattenLoop, leavesDict, leavesVal] at h ⊢
      rw [List.map_append] at h
      rw [← List.append_assoc] at h
      have hsplit := List.nodup_append.mp h
      have hAB := hsplit.1
      have hsplit2 := List.nodup_append.mp hAB
      have hB := hsplit2.2.1
      have hdisAB := hsplit2.2.2
      rw [flatten_dict_eq_aux d' _ sep hB]
      rw [dictUpdate_append_of_disjoint items _
        (fun key hkB hkA => hdisAB hkA hkB) hB]
      rw [flattenLoop_eq_append rest parentKey sep _ ?hrec2]
      · rw [List.append_assoc]
      case hrec2 =>
        rw [List.map_append]
        exact h

theorem flatten_dict_eq_aux (d : NDict) (parentKey sep : String)
    (h : ((leavesDict d parentKey sep).map Prod.fst).Nodup) :
    flatten_dict d parentKey sep = leavesDict d parentKey sep := by
  rw [flatten_dict]
  rw [flattenLoop_eq_append d parentKey sep [] (by simpa using h)]
  simp

end

mutual

theorem mem_keys_flattenLoop (d : NDict) (parentKey sep : String)
    (items : List (String × PyVal)) (k : String)
    (hk : k ∈ (flattenLoop items d parentKey sep).map Prod.fst) :
    k ∈ items.map Prod.fst ∨
      k ∈ (leavesDict d parentKey sep).map Prod.fst := by
  cases d with
  | nil => simpa [flattenLoop, leavesDict] using hk
  | cons k' v rest =>
    cases v with
    | leaf lv =>
      simp only [flattenLoop] at hk
      rcases mem_keys_flattenLoop rest parentKey sep _ k hk with h1 | h1
      · rcases (mem_keys_insert _ _ _ _).mp h1 with h2 | h2
        · exact Or.inl h2
        · right
          simp [leavesDict, leavesVal, h2]
      · right
        simp [leavesDict, leavesVal, h1]
    | node d' =>
      simp only [flattenLoop] at hk
      rcases mem_keys_flattenLoop rest parentKey sep _ k hk with h1 | h1
      · rcases (mem_keys_update _ _ _).mp h1 with h2 | h2
        · exact Or.inl h2
        · right
          have h3 := mem_keys_flatten_dict d' _ sep k h2
          simp only [leavesDict, leavesVal, List.map_append, List.mem_append]
          exact Or.inl h3
      · right
        simp only [leavesDict, leavesVal, List.map_append, List.mem_append]
        exact Or.inr h1

theorem mem_keys_flatten_dict (d : NDict) (parentKey sep : String) (k : String)
    (hk : k ∈ (flatten_dict d parentKey sep).map Prod.fst) :
    k ∈ (leavesDict d parentKey sep).map Prod.fst := by
  rw [flatten_dict] at hk
  rcases mem_keys_flattenLoop d parentKey sep [] k hk with h1 | h1
  · simp at h1
  · exact h1

end

theorem dictLookup_flattenLoop_frame (d : NDict) (parentKey sep : String)
    (items : List (String × PyVal)) (k : String)
    (hk : k ∉ (leavesDict d parentKey sep).map Prod.fst) :
    dictLookup (flattenLoop items d parentKey sep) k = dictLookup items k := by
  cases d with
  | nil => simp [flattenLoop]
  | cons k' v rest =>
    cases v with
    | leaf lv =>
      simp only [leavesDict, leavesVal, List.singleton_append, List.map_cons,
        List.mem_cons, not_or] at hk
      simp only [flattenLoop]
      rw [dictLookup_flattenLoop_frame rest parentKey sep _ k hk.2]
      exact dictLookup_insert_ne _ _ _ _ hk.1
    | node d' =>
      simp only [leavesDict, leavesVal, List.map_append, List.mem_append,
        not_or] at hk
      simp only [flattenLoop]
      rw [dictLookup_flattenLoop_frame rest parentKey sep _ k hk.2]
      apply dictLookup_update_of_not_mem
      intro hc
      exact hk.1 (mem_keys_flatten_dict d' _ sep k hc)

mutual

theorem leavesVal_key_shape (v : NVal) (parentKey sep : String)
    (hp : parentKey ≠ "") :
    ∀ p ∈ leavesVal parentKey sep v,
      p.1 = parentKey ∨ ∃ t, p.1 = parentKey ++ sep ++ t := by
  cases v with
  | leaf lv =>
    intro p hmem
    simp only [leavesVal, List.mem_singleton] at hmem
    exact Or.inl (by rw [hmem])
  | node d =>
    intro p hmem
    simp only [leavesVal] at hmem
    exact Or.inr (leavesDict_key_shape d parentKey sep hp p hmem)

theorem leavesDict_key_shape (d : NDict) (parentKey sep : String)
    (hp : parentKey ≠ "") :
    ∀ p ∈ leavesDict d parentKey sep,
      ∃ t, p.1 = parentKey ++ sep ++ t := by
  cases d with
  | nil =>
    intro p hmem
    simp [leavesDict] at hmem
  | cons k v rest =>
    intro p hmem
    simp only [leavesDict, List.mem_append, if_neg hp] at hmem
    rcases hmem with h1 | h1
    · have hnk : parentKey ++ sep ++ k ≠ "" :=
        append_ne_empty_left _ _ (append_ne_empty_left _ _ hp)
      rcases leavesVal_key_shape v (parentKey ++ sep ++ k) sep hnk p h1 with
        h2 | ⟨t, h2⟩
      · exact ⟨k, h2⟩
      · exact ⟨k ++ sep ++ t, by rw [h2]; simp [String.append_assoc]⟩
    · exact leavesDict_key_shape rest parentKey sep hp p h1

end

theorem flattenLoop_cons_leaf_top (items : List (String × PyVal)) (k : String)
    (lv : PyVal) (rest : NDict) (s : String) :
    flattenLoop items (.cons k (.leaf lv) rest) "" s =
      flattenLoop (dictInsert items k lv) rest "" s := by
  simp [flattenLoop]

theorem flattenLoop_cons_node_top (items : List (String × PyVal)) (k : String)
    (d' : NDict) (rest : NDict) (s : String) :
    flattenLoop items (.cons k (.node d') rest) "" s =
      flattenLoop (dictUpdate items (flatten_dict d' k s)) rest "" s := by
  simp [flattenLoop]

theorem url_not_in_leavesVal (v : NVal) (name : String)
    (hne : name ≠ "url") (hlen : 2 < name.length) :
    "url" ∉ (leavesVal name "." v).map Prod.fst := by
  intro hc
  obtain ⟨p, hmem, hpk⟩ := List.mem_map.mp hc
  have hn0 : name ≠ "" := by
    intro h0
    have h1 : ("" : String).length = 0 := rfl
    rw [h0, h1] at hlen
    omega
  rcases leavesVal_key_shape v name "." hn0 p hmem with h1 | ⟨t, h1⟩
  · exact hne (by rw [← hpk, h1])
  · have heq : ("url" : String) = name ++ "." ++ t := by rw [← hpk, h1]
    have hlen2 := congrArg String.length heq
    rw [String.length_append, String.length_append] at hlen2
    have hu : ("url" : String).length = 3 := rfl
    have hdot : ("." : String).length = 1 := rfl
    omega

/-- Counterexample for C3 as stated: the valid Python mapping
`{"a": {"b": 1}, "a.b": 2}` has two non-mapping leaves whose dotted paths
both read `"a.b"`; `flatten_dict` keeps only one entry, and the leaf `1`
is lost, so flattening does not produce one entry per leaf with every
leaf appearing exactly once. -/
theorem flatten_dict_path_collision :
    leavesDict collidingDict "" "." = [("a.b", .vInt 1), ("a.b", .vInt 2)] ∧
    flatten_dict collidingDict "" "." = [("a.b", .vInt 2)] ∧
    (flatten_dict collidingDict "" ".").length = 1 ∧
    ("a.b", PyVal.vInt 1) ∉ flatten_dict collidingDict "" "." := by
  refine ⟨?_, ?_, ?_, ?_⟩ <;>
    simp [flatten_dict, flattenLoop, leavesDict, leavesVal, collidingDict,
      dictUpdate, dictInsert]

/-- Claim C3, amended: flattening is total, and path-unique on every nested
mapping whose dot-joined leaf paths are pairwise distinct (in particular
any mapping whose keys avoid the separator): there `flatten_dict` returns
exactly the source-ordered list of (dotted path, leaf) pairs — one entry
per non-mapping leaf, every leaf exactly once under its unique dotted
path — and on the spec's example `{"a": {"b": 1, "c": {"d": 2}}, "e": 3}`
it yields `{"a.b": 1, "a.c.d": 2, "e": 3}`. -/
theorem flatten_dict_eq_leaves :
    (flatten_dict exampleDict "" "." =
      [("a.b", .vInt 1), ("a.c.d", .vInt 2), ("e", .vInt 3)]) ∧
    (∀ d : NDict, ((leavesDict d "" ".").map Prod.fst).Nodup →
      flatten_dict d "" "." = leavesDict d "" "." ∧
      (flatten_dict d "" ".").length = (leavesDict d "" ".").length ∧
      ((flatten_dict d "" ".").map Prod.fst).Nodup) := by
  constructor
  · simp [flatten_dict, flattenLoop, exampleDict, dictUpdate, dictInsert]
  · intro d hd
    have heq := flatten_dict_eq_aux d "" "." hd
    refine ⟨heq, by rw [heq], by rw [heq]; exact hd⟩

/-- Witness for C3 (amended): the spec's example mapping has distinct
dotted paths, and flattening it agrees with its leaf list. -/
theorem flatten_dict_eq_leaves_witness :
    flatten_dict exampleDict "" "." = leavesDict exampleDict "" "." :=
  (flatten_dict_eq_leaves.2 exampleDict
    (by simp [exampleDict, leavesDict, leavesVal])).1

/-- Claim C10: `flatten_dict` produces no entry for an empty sub-mapping —
an entry holding `{}` contributes nothing to the flat record rather than
appearing as an empty value; `normalize_res` turns every exception into
`{}` (even for the `types` section whose successful shape is a list); a
run of `get_complete_game_data` in which every section task failed
flattens to exactly `{"url": url}`; and for every combination of section
outcomes the top-level `"url"` key is present and bound to the input
URL. -/
theorem complete_game_data_url (url : String) (r0 r1 r2 r3 r4 : SecRes) :
    (∀ parentKey sep, flatten_dict NDict.nil parentKey sep = []) ∧
    (∀ items k rest parentKey sep,
      flattenLoop items (.cons k (.node .nil) rest) parentKey sep =
        flattenLoop items rest parentKey sep) ∧
    (∀ e, normalize_res (.exc e) = .node .nil) ∧
    (∀ e0 e1 e2 e3 e4,
      get_complete_game_data url (.exc e0) (.exc e1) (.exc e2) (.exc e3)
        (.exc e4) = [("url", .vStr url)]) ∧
    dictLookup (get_complete_game_data url r0 r1 r2 r3 r4) "url" =
      some (.vStr url) := by
  refine ⟨?_, ?_, fun _ => rfl, ?_, ?_⟩
  · intro parentKey sep
    simp [flatten_dict, flattenLoop]
  · intro items k rest parentKey sep
    simp [flattenLoop, flatten_dict, dictUpdate]
  · intro e0 e1 e2 e3 e4
    simp [get_complete_game_data, normalize_res, flatten_dict, flattenLoop,
      dictUpdate, dictInsert]
  · unfold get_complete_game_data
    rw [flatten_dict]
    have h1 := url_not_in_leavesVal (normalize_res r1) "basic_info"
      (by decide) (by decide)
    have h2 := url_not_in_leavesVal (normalize_res r2) "stats"
      (by decide) (by decide)
    have h3 := url_not_in_leavesVal (normalize_res r3) "types"
      (by decide) (by decide)
    have h4 := url_not_in_leavesVal (normalize_res r4) "categories_mechanics"
      (by decide) (by decide)
    have hnotin : "url" ∉ (leavesDict
        (.cons "basic_info" (normalize_res r1)
          (.cons "stats" (normalize_res r2)
            (.cons "types" (normalize_res r3)
              (.cons "categories_mechanics" (normalize_res r4) .nil))))
        "" ".").map Prod.fst := by
      simp only [leavesDict, List.map_append, List.mem_append, not_or,
        List.map_nil, List.not_mem_nil, not_false_iff, and_true, reduceIte]
      exact ⟨h1, h2, h3, h4⟩
    cases hr0 : normalize_res r0 with
    | leaf lv =>
      rw [flattenLoop_cons_leaf_top, flattenLoop_cons_leaf_top,
        dictLookup_flattenLoop_frame _ _ _ _ _ hnotin, dictLookup_insert_self]
    | node d0 =>
      rw [flattenLoop_cons_node_top, flattenLoop_cons_leaf_top,
        dictLookup_flattenLoop_frame _ _ _ _ _ hnotin, dictLookup_insert_self]

end BGG
